import Mathlib

/-!
Verification of the claim-classification preprocessing pipeline
(notebook "03 Claim Classification").

The pure text-preprocessing functions are embedded shallowly:
Python strings become `String`, Python lists become `List`, the
contraction dict becomes an association list, and `list.index`
(which raises `ValueError` on a missing element) becomes an
`Option Nat`-valued first-index search.
-/

/-- The character class `[string.punctuation]` used by
`remove_special_characters`: the 32 ASCII punctuation characters,
i.e. code points 33-47, 58-64, 91-96 and 123-126. -/
def isPunctChar (c : Char) : Bool :=
  (33 ≤ c.toNat && c.toNat ≤ 47) || (58 ≤ c.toNat && c.toNat ≤ 64) ||
  (91 ≤ c.toNat && c.toNat ≤ 96) || (123 ≤ c.toNat && c.toNat ≤ 126)

/-- `remove_special_characters(token)`: delete every ASCII punctuation
character from the token (the regex `sub` of the punctuation class by
the empty string). -/
def remove_special_characters (token : String) : String :=
  String.mk (token.data.filter (fun c => !isPunctChar c))

/-- Python `str.lower()` restricted to the mapping actually applied here,
character-wise lowercasing. -/
def lowerStr (s : String) : String := String.mk (s.data.map Char.toLower)

/-- Helper for `pySplit`: scan the characters, accumulating the current
token in reverse; whitespace ends the current token (empty tokens are
discarded, as Python `str.split()` does). -/
def pySplitAux : List Char → List Char → List String
  | [], acc => if acc.isEmpty then [] else [String.mk acc.reverse]
  | c :: rest, acc =>
    if c.isWhitespace then
      if acc.isEmpty then pySplitAux rest []
      else String.mk acc.reverse :: pySplitAux rest []
    else pySplitAux rest (c :: acc)

/-- Python `str.split()` with no argument: split on runs of whitespace,
discarding empty tokens. -/
def pySplit (s : String) : List String := pySplitAux s.data []

/-- Python `list.index(w)` on the dictionary: the index of the FIRST
occurrence of `w`, or `none` where Python raises `ValueError`. -/
def indexOfWord : List String → String → Option Nat
  | [], _ => none
  | x :: rest, w => if x = w then some 0 else (indexOfWord rest w).map (· + 1)

/-- Body of the inner `for resolved_word in resolved_words` loop of
`convert_to_indices`: append the dictionary index of the resolved word,
or the unknown-word index when `dictionary.index` raises `ValueError`. -/
def resolved_word_step (dictionary : List String) (unk_word_index : Nat)
    (seq : List Nat) (resolved_word : String) : List Nat :=
  match indexOfWord dictionary resolved_word with
  | some word_index => seq ++ [word_index]
  | none => seq ++ [unk_word_index]

/-- Body of the `for word in tokens` loop of `convert_to_indices`:
lowercase the token; if it is a key of the contraction map, process the
whitespace-split words of its expansion; otherwise strip punctuation and,
when the cleaned word is nonempty, append its dictionary index (the
unknown-word index when `dictionary.index` raises `ValueError`). -/
def token_step (dictionary : List String) (c_map : List (String × String))
    (unk_word_index : Nat) (sequence : List Nat) (word : String) : List Nat :=
  let w := lowerStr word
  match c_map.lookup w with
  | some expansion =>
    (pySplit expansion).foldl (resolved_word_step dictionary unk_word_index) sequence
  | none =>
    let clean_word := remove_special_characters w
    if 0 < clean_word.length then
      match indexOfWord dictionary clean_word with
      | some word_index => sequence ++ [word_index]
      | none => sequence ++ [unk_word_index]
    else sequence

/-- `convert_to_indices(corpus, dictionary, c_map, unk_word_index=399999)`:
for each claim of the corpus, fold the token loop over its
whitespace-split tokens starting from the empty sequence, and append the
resulting sequence to the list of sequences.  The notebook calls it with
the default `unk_word_index = 399999`. -/
def convert_to_indices (corpus : List String) (dictionary : List String)
    (c_map : List (String × String)) (unk_word_index : Nat) : List (List Nat) :=
  corpus.foldl (fun sequences claim =>
    sequences ++ [(pySplit claim).foldl
      (token_step dictionary c_map unk_word_index) []]) []

/-- Declarative description of what one token of a claim contributes to
its index sequence (used to characterise `convert_to_indices`). -/
def wordContribution (dictionary : List String) (c_map : List (String × String))
    (unk : Nat) (word : String) : List Nat :=
  match c_map.lookup (lowerStr word) with
  | some expansion =>
    (pySplit expansion).map (fun rw => (indexOfWord dictionary rw).getD unk)
  | none =>
    let clean := remove_special_characters (lowerStr word)
    if 0 < clean.length then [(indexOfWord dictionary clean).getD unk] else []

/-- The words that `convert_to_indices` actually looks up in the
dictionary for a given token: the words of a contraction expansion, or
the cleaned token when it is nonempty. -/
def lookedUpWords (c_map : List (String × String)) (word : String) : List String :=
  match c_map.lookup (lowerStr word) with
  | some expansion => pySplit expansion
  | none =>
    let clean := remove_special_characters (lowerStr word)
    if 0 < clean.length then [clean] else []

/-- Modelled from the spec: `keras.preprocessing.sequence.pad_sequences`
(external framework code, not in this repository) with `padding=pre` and
`truncating=post` — each sequence is truncated to its first `maxlen`
entries when longer, and left-padded with zeros to `maxlen` when
shorter. -/
def pad_sequences (sequences : List (List Nat)) (maxlen : Nat) : List (List Nat) :=
  sequences.map (fun s =>
    if maxlen ≤ s.length then s.take maxlen
    else List.replicate (maxlen - s.length) 0 ++ s)

/-- Modelled from the spec: `keras.utils.to_categorical` (external
framework code, not in this repository) — one-hot encoding of integer
class labels over `num_classes` classes. -/
def to_categorical (labels : List Nat) (num_classes : Nat) : List (List Nat) :=
  labels.map (fun y => (List.range num_classes).map (fun j => if j = y then 1 else 0))

/-- Modelled from the spec: the notebook's top-level linear script.  The
artifact downloads (`urlretrieve` of the dictionary, the contraction
table, and the corpus) are fallible steps with no exception handler
around them; they are modelled as `Except` values sequenced
monadically, so a failure of any step aborts the script. -/
def preprocess_pipeline (fetch_dictionary : Except String (List String))
    (fetch_contractions : Except String (List (String × String)))
    (fetch_corpus : Except String (List String)) :
    Except String (List (List Nat)) := do
  let dictionary ← fetch_dictionary
  let contractions ← fetch_contractions
  let corpus ← fetch_corpus
  pure (convert_to_indices corpus dictionary contractions 399999)

/-! ## Helper lemmas -/

theorem foldl_append_one {α β : Type} (f : List β → α → List β) (g : α → β)
    (hf : ∀ acc x, f acc x = acc ++ [g x]) (l : List α) (init : List β) :
    l.foldl f init = init ++ l.map g := by
  induction l generalizing init with
  | nil => simp
  | cons x xs ih => rw [List.foldl_cons, hf, ih, List.map_cons, List.append_assoc]; rfl

theorem foldl_step_flat {α β : Type} (f : List β → α → List β) (g : α → List β)
    (hf : ∀ acc x, f acc x = acc ++ g x) (l : List α) (init : List β) :
    l.foldl f init = init ++ l.flatMap g := by
  induction l generalizing init with
  | nil => simp
  | cons x xs ih => rw [List.foldl_cons, hf, ih, List.flatMap_cons, List.append_assoc]

theorem resolved_word_step_eq (dictionary : List String) (unk : Nat)
    (seq : List Nat) (rw : String) :
    resolved_word_step dictionary unk seq rw =
      seq ++ [(indexOfWord dictionary rw).getD unk] := by
  unfold resolved_word_step
  cases indexOfWord dictionary rw <;> rfl

theorem flatMap_pure_eq_map {α β : Type} (f : α → β) (l : List α) :
    l.flatMap (fun x => [f x]) = l.map f := by
  induction l with
  | nil => rfl
  | cons x xs ih => simp [List.flatMap_cons, ih]

theorem token_step_eq (dictionary : List String) (c_map : List (String × String))
    (unk : Nat) (sequence : List Nat) (word : String) :
    token_step dictionary c_map unk sequence word =
      sequence ++ wordContribution dictionary c_map unk word := by
  unfold token_step wordContribution
  dsimp only
  cases c_map.lookup (lowerStr word) with
  | some expansion =>
    dsimp only
    rw [foldl_step_flat _ (fun rw => [(indexOfWord dictionary rw).getD unk])
      (fun acc x => resolved_word_step_eq dictionary unk acc x), flatMap_pure_eq_map]
  | none =>
    dsimp only
    by_cases hlen : 0 < (remove_special_characters (lowerStr word)).length
    · rw [if_pos hlen, if_pos hlen]
      cases indexOfWord dictionary (remove_special_characters (lowerStr word)) <;> simp
    · rw [if_neg hlen, if_neg hlen]
      simp

theorem convert_to_indices_eq (corpus dictionary : List String)
    (c_map : List (String × String)) (unk : Nat) :
    convert_to_indices corpus dictionary c_map unk =
      corpus.map (fun claim =>
        (pySplit claim).flatMap (wordContribution dictionary c_map unk)) := by
  unfold convert_to_indices
  rw [foldl_append_one _
    (fun claim => (pySplit claim).flatMap (wordContribution dictionary c_map unk))
    (fun acc claim => by
      rw [foldl_step_flat _ (wordContribution dictionary c_map unk)
        (fun s w => token_step_eq dictionary c_map unk s w)]
      rfl)]
  rfl

theorem wordContribution_eq_lookedUp (dictionary : List String)
    (c_map : List (String × String)) (unk : Nat) (word : String) :
    wordContribution dictionary c_map unk word =
      (lookedUpWords c_map word).map (fun u =>
        match indexOfWord dictionary u with
        | some word_index => word_index
        | none => unk) := by
  unfold wordContribution lookedUpWords
  have hgetD : ∀ u : String, (indexOfWord dictionary u).getD unk =
      (match indexOfWord dictionary u with
       | some word_index => word_index
       | none => unk) := by
    intro u
    cases indexOfWord dictionary u <;> rfl
  cases c_map.lookup (lowerStr word) with
  | some expansion =>
    simp only [hgetD]
  | none =>
    by_cases hlen : 0 < (remove_special_characters (lowerStr word)).length
    · simp only [if_pos hlen, List.map_cons, List.map_nil, hgetD]
    · simp only [if_neg hlen, List.map_nil]

theorem indexOfWord_first (dictionary : List String) (w : String) :
    ∀ i, indexOfWord dictionary w = some i →
      dictionary[i]? = some w ∧ ∀ j, j < i → dictionary[j]? ≠ some w := by
  induction dictionary with
  | nil => intro i h; simp [indexOfWord] at h
  | cons x rest ih =>
    intro i h
    rw [indexOfWord] at h
    by_cases hx : x = w
    · rw [if_pos hx] at h
      cases h
      exact ⟨by simp [hx], fun j hj => absurd hj (Nat.not_lt_zero j)⟩
    · rw [if_neg hx] at h
      rcases Option.map_eq_some'.mp h with ⟨i', hi', rfl⟩
      obtain ⟨hget, hfirst⟩ := ih i' hi'
      refine ⟨by simpa using hget, ?_⟩
      intro j hj
      cases j with
      | zero => simpa using hx
      | succ k =>
        have : k < i' := Nat.lt_of_succ_lt_succ hj
        simpa using hfirst k this

theorem indexOfWord_lt_length (dictionary : List String) (w : String) :
    ∀ i, indexOfWord dictionary w = some i → i < dictionary.length := by
  induction dictionary with
  | nil => intro i h; simp [indexOfWord] at h
  | cons x rest ih =>
    intro i h
    rw [indexOfWord] at h
    by_cases hx : x = w
    · rw [if_pos hx] at h
      cases h
      simp
    · rw [if_neg hx] at h
      rcases Option.map_eq_some'.mp h with ⟨i', hi', rfl⟩
      have := ih i' hi'
      simp only [List.length_cons]
      omega

theorem mem_wordContribution (dictionary : List String)
    (c_map : List (String × String)) (unk : Nat) (word : String) (idx : Nat)
    (h : idx ∈ wordContribution dictionary c_map unk word) :
    (∃ u i, indexOfWord dictionary u = some i ∧ idx = i) ∨ idx = unk := by
  unfold wordContribution at h
  cases hl : c_map.lookup (lowerStr word) with
  | some expansion =>
    rw [hl] at h
    rcases List.mem_map.mp h with ⟨u, _, rfl⟩
    cases hu : indexOfWord dictionary u with
    | some i => exact Or.inl ⟨u, i, hu, rfl⟩
    | none => exact Or.inr rfl
  | none =>
    rw [hl] at h
    by_cases hlen : 0 < (remove_special_characters (lowerStr word)).length
    · rw [if_pos hlen] at h
      rcases List.mem_singleton.mp h with rfl
      cases hu : indexOfWord dictionary (remove_special_characters (lowerStr word)) with
      | some i => exact Or.inl ⟨_, i, hu, rfl⟩
      | none => exact Or.inr rfl
    · rw [if_neg hlen] at h
      exact absurd h (List.not_mem_nil idx)

/-! ## Claim theorems -/

/-- C1: for every corpus, dictionary and contraction map, the sequences
produced by `convert_to_indices` (with its default unknown-word index)
consist, claim by claim and token by token, of one index per looked-up
word — the words of a contraction expansion, or the cleaned
non-contraction token when nonempty — and every looked-up word that is
absent from the dictionary contributes exactly the fixed placeholder
index 399999 in its place; a found word contributes its dictionary
index, so the placeholder substitution is the only failure handling that
the preprocessing performs. -/
theorem claim_C1 (corpus dictionary : List String)
    (c_map : List (String × String)) :
    convert_to_indices corpus dictionary c_map 399999 =
      corpus.map (fun claim =>
        (pySplit claim).flatMap (fun word =>
          (lookedUpWords c_map word).map (fun u =>
            match indexOfWord dictionary u with
            | some word_index => word_index
            | none => 399999))) := by
  have hwc : wordContribution dictionary c_map 399999 = fun word =>
      (lookedUpWords c_map word).map (fun u =>
        match indexOfWord dictionary u with
        | some word_index => word_index
        | none => 399999) := by
    funext word
    exact wordContribution_eq_lookedUp dictionary c_map 399999 word
  rw [convert_to_indices_eq, hwc]

/-- C2: `convert_to_indices` processes the whitespace-split tokens of
every claim left to right; each token is lowercased, a contraction-map
key is replaced by the words of its expansion, any other token has its
punctuation stripped (all of which is recorded in `wordContribution`),
the emitted indices appear in claim order, and an emitted index `i` for a
dictionary word is the index of that word's first occurrence: the
dictionary at `i` equals the word and no earlier position does. -/
theorem claim_C2 (corpus dictionary : List String)
    (c_map : List (String × String)) :
    convert_to_indices corpus dictionary c_map 399999 =
      corpus.map (fun claim =>
        (pySplit claim).flatMap (wordContribution dictionary c_map 399999)) ∧
    ∀ w i, indexOfWord dictionary w = some i →
      dictionary[i]? = some w ∧ ∀ j, j < i → dictionary[j]? ≠ some w :=
  ⟨convert_to_indices_eq corpus dictionary c_map 399999,
   fun w i h => indexOfWord_first dictionary w i h⟩

theorem claim_C2_witness :
    convert_to_indices ["The cat!"] ["the", "cat"] [] 399999 = [[0, 1]] ∧
    (["the", "cat"] : List String)[1]? = some "cat" := by
  have h := claim_C2 ["The cat!"] ["the", "cat"] []
  refine ⟨?_, ?_⟩
  · rw [h.1]
    decide
  · exact (h.2 "cat" 1 (by decide)).1

/-- C3: padding with maximum length 125, `padding=pre` and
`truncating=post` yields one row per input sequence, every row has
exactly 125 entries, a shorter sequence is left-padded with zeros, and a
longer sequence keeps exactly its first 125 indices. -/
theorem claim_C3 (seqs : List (List Nat)) :
    (pad_sequences seqs 125).length = seqs.length ∧
    (∀ row ∈ pad_sequences seqs 125, row.length = 125) ∧
    (∀ (i : Nat) (s : List Nat), seqs[i]? = some s →
      (s.length < 125 →
        (pad_sequences seqs 125)[i]? = some (List.replicate (125 - s.length) 0 ++ s)) ∧
      (125 ≤ s.length →
        (pad_sequences seqs 125)[i]? = some (s.take 125))) := by
  refine ⟨List.length_map seqs _, ?_, ?_⟩
  · intro row hrow
    rcases List.mem_map.mp hrow with ⟨s, _, rfl⟩
    by_cases hle : 125 ≤ s.length
    · rw [if_pos hle]
      rw [List.length_take]
      omega
    · rw [if_neg hle]
      rw [List.length_append, List.length_replicate]
      omega
  · intro i s hs
    constructor
    · intro hlt
      rw [pad_sequences, List.getElem?_map, hs]
      have : ¬ 125 ≤ s.length := by omega
      rw [Option.map_some', if_neg this]
    · intro hge
      rw [pad_sequences, List.getElem?_map, hs]
      rw [Option.map_some', if_pos hge]

theorem claim_C3_witness :
    (pad_sequences [[7, 8, 9]] 125).length = 1 ∧
    (∀ row ∈ pad_sequences [[7, 8, 9]] 125, row.length = 125) ∧
    (pad_sequences [[7, 8, 9]] 125)[0]? =
      some (List.replicate 122 0 ++ [7, 8, 9]) :=
  ⟨(claim_C3 [[7, 8, 9]]).1, (claim_C3 [[7, 8, 9]]).2.1,
   ((claim_C3 [[7, 8, 9]]).2.2 0 [7, 8, 9] rfl).1 (by decide)⟩

/-- C4: tokenization is deterministic for fixed input — in this pure
embedding `convert_to_indices` and `remove_special_characters` depend on
nothing but their arguments, so two runs on the same arguments are
definitionally equal. -/
theorem claim_C4 (corpus dictionary : List String)
    (c_map : List (String × String)) (unk : Nat) (token : String) :
    convert_to_indices corpus dictionary c_map unk =
      convert_to_indices corpus dictionary c_map unk ∧
    remove_special_characters token = remove_special_characters token :=
  ⟨rfl, rfl⟩

/-- C5: a non-contraction token that cleans to the empty string is
silently dropped — it contributes nothing, not the placeholder — so a
claim all of whose tokens are punctuation-only non-contractions yields
the empty sequence. -/
theorem claim_C5 (dictionary : List String) (c_map : List (String × String))
    (unk : Nat) (claim : String)
    (hnc : ∀ word ∈ pySplit claim, c_map.lookup (lowerStr word) = none)
    (hpunct : ∀ word ∈ pySplit claim,
      remove_special_characters (lowerStr word) = "") :
    convert_to_indices [claim] dictionary c_map unk = [[]] ∧
    ∀ word ∈ pySplit claim, wordContribution dictionary c_map unk word = [] := by
  have hword : ∀ word ∈ pySplit claim,
      wordContribution dictionary c_map unk word = [] := by
    intro word hmem
    unfold wordContribution
    rw [hnc word hmem]
    dsimp only
    rw [hpunct word hmem]
    rfl
  refine ⟨?_, hword⟩
  rw [convert_to_indices_eq, List.map_cons, List.map_nil]
  rw [List.flatMap_eq_nil_iff.mpr hword]

theorem claim_C5_witness :
    convert_to_indices ["!!! ???,"] [] [] 399999 = [[]] :=
  (claim_C5 [] [] 399999 "!!! ???," (by decide) (by decide)).1

/-- C6: under the precondition that the dictionary and the word-vector
table have exactly 400,000 entries, the placeholder 399999 addresses the
last row of the table, and every index emitted by `convert_to_indices` —
a dictionary position or the placeholder — is in bounds for an embedding
layer with that many rows. -/
theorem claim_C6 (corpus dictionary : List String)
    (c_map : List (String × String)) (rows : Nat)
    (hrows : rows = 400000) (hdict : dictionary.length = 400000) :
    399999 = rows - 1 ∧
    ∀ seq ∈ convert_to_indices corpus dictionary c_map 399999,
      ∀ idx ∈ seq, idx < rows := by
  subst hrows
  refine ⟨rfl, ?_⟩
  intro seq hseq idx hidx
  rw [convert_to_indices_eq] at hseq
  rcases List.mem_map.mp hseq with ⟨claim, _, rfl⟩
  rcases List.mem_flatMap.mp hidx with ⟨word, _, hw⟩
  rcases mem_wordContribution dictionary c_map 399999 word idx hw with
    ⟨u, i, hu, heq⟩ | heq
  · have hlt := indexOfWord_lt_length dictionary u i hu
    omega
  · omega

theorem claim_C6_witness :
    399999 = 400000 - 1 ∧
    ∀ seq ∈ convert_to_indices ["a claim"] (List.replicate 400000 "the") [] 399999,
      ∀ idx ∈ seq, idx < 400000 :=
  claim_C6 ["a claim"] (List.replicate 400000 "the") [] 400000 rfl
    (List.length_replicate 400000 "the")

/-- C7: given binary labels parallel to the claims list, `to_categorical`
over 2 classes produces one row per label (so as many rows as claims),
label 0 becoming `[1, 0]` and label 1 becoming `[0, 1]`, in label
order. -/
theorem claim_C7 (claims_corpus : List String) (labels : List Nat)
    (hbin : ∀ y ∈ labels, y = 0 ∨ y = 1)
    (hpar : labels.length = claims_corpus.length) :
    (to_categorical labels 2).length = claims_corpus.length ∧
    ∀ (i : Nat) (y : Nat), labels[i]? = some y →
      (to_categorical labels 2)[i]? =
        some (if y = 0 then [1, 0] else [0, 1]) := by
  constructor
  · rw [to_categorical, List.length_map, hpar]
  · intro i y hy
    have hmem : y ∈ labels := List.getElem?_mem hy
    rw [to_categorical, List.getElem?_map, hy, Option.map_some']
    rcases hbin y hmem with rfl | rfl
    · decide
    · decide

theorem claim_C7_witness :
    (to_categorical [0, 1] 2).length = 2 ∧
    (to_categorical [0, 1] 2)[0]? = some [1, 0] ∧
    (to_categorical [0, 1] 2)[1]? = some [0, 1] := by
  have h := claim_C7 ["first claim", "second claim"] [0, 1] (by decide) (by decide)
  refine ⟨h.1, ?_, ?_⟩
  · have h0 := h.2 0 0 (by decide)
    simpa using h0
  · have h1 := h.2 1 1 (by decide)
    simpa using h1

/-- C8: the downloads preceding the preprocessing have no exception
handler, so an error in any of them propagates: the pipeline result is
that very error and no partially built sequence list is produced; only
when every fallible step succeeds does the pipeline return the sequence
list, `convert_to_indices` itself being total because the single failure
it handles internally (an unmapped word) is replaced by the
placeholder. -/
theorem claim_C8 (fetch_dictionary : Except String (List String))
    (fetch_contractions : Except String (List (String × String)))
    (fetch_corpus : Except String (List String)) :
    (∀ e, fetch_dictionary = Except.error e →
      preprocess_pipeline fetch_dictionary fetch_contractions fetch_corpus =
        Except.error e) ∧
    (∀ e d, fetch_dictionary = Except.ok d →
      fetch_contractions = Except.error e →
      preprocess_pipeline fetch_dictionary fetch_contractions fetch_corpus =
        Except.error e) ∧
    (∀ e d c, fetch_dictionary = Except.ok d →
      fetch_contractions = Except.ok c →
      fetch_corpus = Except.error e →
      preprocess_pipeline fetch_dictionary fetch_contractions fetch_corpus =
        Except.error e) ∧
    (∀ d c corp, fetch_dictionary = Except.ok d →
      fetch_contractions = Except.ok c →
      fetch_corpus = Except.ok corp →
      preprocess_pipeline fetch_dictionary fetch_contractions fetch_corpus =
        Except.ok (convert_to_indices corp d c 399999)) := by
  refine ⟨?_, ?_, ?_, ?_⟩ <;> intros <;> subst_vars <;> rfl

theorem claim_C8_witness :
    preprocess_pipeline (Except.error "network error") (Except.ok [])
      (Except.ok []) = Except.error "network error" :=
  (claim_C8 (Except.error "network error") (Except.ok []) (Except.ok [])).1
    "network error" rfl

/-- C9: contraction expansion applies only when the entire lowercased raw
token is a key of the contraction map; a token that is not a key — in
particular a contraction with attached punctuation — is never expanded
and instead has its punctuation stripped and at most one index emitted
for the cleaned form, while the words of an expansion are looked up
verbatim, with no further lowercasing and no punctuation stripping. -/
theorem claim_C9 (dictionary : List String)
    (c_map : List (String × String)) (unk : Nat) :
    (∀ corpus, convert_to_indices corpus dictionary c_map unk =
      corpus.map (fun claim =>
        (pySplit claim).flatMap (wordContribution dictionary c_map unk))) ∧
    (∀ word, c_map.lookup (lowerStr word) = none →
      wordContribution dictionary c_map unk word =
        (if 0 < (remove_special_characters (lowerStr word)).length then
          [(indexOfWord dictionary
            (remove_special_characters (lowerStr word))).getD unk]
         else [])) ∧
    (∀ word expansion, c_map.lookup (lowerStr word) = some expansion →
      wordContribution dictionary c_map unk word =
        (pySplit expansion).map
          (fun rw => (indexOfWord dictionary rw).getD unk)) := by
  refine ⟨fun corpus => convert_to_indices_eq corpus dictionary c_map unk, ?_, ?_⟩
  · intro word hnone
    unfold wordContribution
    rw [hnone]
  · intro word expansion hsome
    unfold wordContribution
    rw [hsome]

theorem claim_C9_witness :
    wordContribution ["can", "not", "cant"] [("cant", "can not")] 399999
      "can\x27t," = [2] ∧
    wordContribution ["can", "not", "cant"] [("cant", "can not")] 399999
      "cant" = [0, 1] := by
  have h := claim_C9 ["can", "not", "cant"] [("cant", "can not")] 399999
  constructor
  · rw [h.2.1 "can\x27t," (by decide)]
    decide
  · rw [h.2.2 "cant" "can not" (by decide)]
    decide

/-- C10: `remove_special_characters` is idempotent, its output contains
no ASCII punctuation character, it never lengthens its input, and its
output is exactly the non-punctuation characters of the input in their
original order. -/
theorem claim_C10 (token : String) :
    remove_special_characters (remove_special_characters token) =
      remove_special_characters token ∧
    (∀ c ∈ (remove_special_characters token).data, isPunctChar c = false) ∧
    (remove_special_characters token).length ≤ token.length ∧
    (remove_special_characters token).data =
      token.data.filter (fun c => !isPunctChar c) := by
  refine ⟨?_, ?_, ?_, rfl⟩
  · unfold remove_special_characters
    congr 1
    show (token.data.filter (fun c => !isPunctChar c)).filter
        (fun c => !isPunctChar c) =
      token.data.filter (fun c => !isPunctChar c)
    exact List.filter_eq_self.mpr (fun a ha => (List.mem_filter.mp ha).2)
  · intro c hc
    have h2 := (List.mem_filter.mp hc).2
    simpa using h2
  · exact List.length_filter_le (fun c => !isPunctChar c) token.data

theorem claim_C10_witness :
    remove_special_characters (remove_special_characters "a,b!") =
      remove_special_characters "a,b!" ∧
    remove_special_characters "a,b!" = "ab" :=
  ⟨(claim_C10 "a,b!").1, by decide⟩
